import Mathlib

/-!
Verification development for the regulatory search server
(`DocService/sources/regulatorySearchHandler.js`).

The JavaScript source is shallowly embedded in Lean:

* Byte buffers are `List Nat` (each entry one byte).
* The Bedrock event-stream frame decoder (the data-event loop of
  `streamClaude`, lines 250-327) is embedded as executable functions
  `parseEventFrame` / `processEventBuffer` / `runDecoder`.  The `while` loop
  is modelled with explicit fuel; the boolean in the result is `true` exactly
  when the loop exited through one of its `break`/empty-buffer conditions,
  and `false` when no amount of fuel suffices (the loop diverges).
* `JSON.parse` of a frame payload plus the `contentBlockDelta.delta.text`
  extraction is a parameter `parsePayload : List Nat → Option String`:
  `none` models a malformed payload (parse error or no content delta),
  `some t` a payload carrying the delta text `t`.
* External HTTP responses (Bedrock, OpenSearch) are oracle values passed to
  the embedded functions; the parsing done by the repository itself and fallback logic on
  those responses is translated faithfully.
* JS `Date`/timestamps are explicit string arguments, and the `crypto`
  primitives of the request signer are function parameters.
-/

/-! ### Byte-buffer primitives (Node `Buffer` reads and `slice`) -/

/-- `Buffer.readUInt8(off)`; `none` models the out-of-range `RangeError`. -/
def readUInt8 (b : List Nat) (off : Nat) : Option Nat :=
  b[off]?

/-- `Buffer.readUInt16BE(off)`; `none` models the out-of-range `RangeError`. -/
def readUInt16BE (b : List Nat) (off : Nat) : Option Nat :=
  match b[off]?, b[off + 1]? with
  | some x, some y => some (x * 256 + y)
  | _, _ => none

/-- `Buffer.readUInt32BE(off)`; `none` models the out-of-range `RangeError`. -/
def readUInt32BE (b : List Nat) (off : Nat) : Option Nat :=
  match b[off]?, b[off + 1]?, b[off + 2]?, b[off + 3]? with
  | some x, some y, some z, some w =>
      some (((x * 256 + y) * 256 + z) * 256 + w)
  | _, _, _, _ => none

/-- `Buffer.slice(s, e)` for `0 ≤ s, e` (clamping semantics). -/
def bufSlice (b : List Nat) (s e : Nat) : List Nat :=
  (b.take e).drop s

/-- Decode bytes to a string the way the buffer-to-utf8 conversion does for the
ASCII range (the decoded value only steers the `:event-type` comparison,
whose result the source never uses downstream). -/
def bytesToString (l : List Nat) : String :=
  String.mk (l.map Char.ofNat)

/-! ### Event-stream frame decoder (`streamClaude`, lines 250-327) -/

/-- The header-parsing `while (headerOffset < headersEnd)` loop inside a
frame (lines 282-303).  Returns the `:event-type` header value found so far;
`none` models a thrown `RangeError` (caught at line 324, dropping the whole
frame).  A non-string value type (tag ≠ 7) breaks out of the loop. -/
def parseHeadersLoop (msg : List Nat) (headersEnd : Nat)
    (eventType : String) (headerOffset : Nat) : Option String :=
  if _h : headerOffset < headersEnd then
    match readUInt8 msg headerOffset with
    | none => none
    | some nameLength =>
      let o1 := headerOffset + 1
      let name := bytesToString (bufSlice msg o1 (o1 + nameLength))
      let o2 := o1 + nameLength
      match readUInt8 msg o2 with
      | none => none
      | some valueType =>
        let o3 := o2 + 1
        if valueType = 7 then
          match readUInt16BE msg o3 with
          | none => none
          | some valueLength =>
            let o4 := o3 + 2
            let value := bytesToString (bufSlice msg o4 (o4 + valueLength))
            let o5 := o4 + valueLength
            parseHeadersLoop msg headersEnd
              (if name = ":event-type" then value else eventType) o5
        else
          some eventType
  else
    some eventType
termination_by headersEnd - headerOffset
decreasing_by
  omega

/-- The per-message `try { ... }` block (lines 273-326): read the headers
length at offset 4, run the header loop from offset 12, then parse the
payload between the headers block and the trailing 4-byte CRC.  The returned
list holds the text deltas emitted via `onChunk` for this frame (zero or
one).  Any modelled `RangeError` (`none` from a read) drops the frame. -/
def parseEventFrame (parsePayload : List Nat → Option String)
    (message : List Nat) : List String :=
  match readUInt32BE message 4 with
  | none => []
  | some headersLength =>
    let headersEnd := 12 + headersLength
    match parseHeadersLoop message headersEnd "" 12 with
    | none => []
    | some _eventType =>
      let payload := bufSlice message headersEnd (message.length - 4)
      if payload.length > 0 then
        match parsePayload payload with
        | some text => [text]
        | none => []
      else
        []

/-- The `while (buffer.length > 0)` loop of the `data` handler (lines
258-327), with explicit fuel.  Returns the emitted text deltas, the
remaining buffer, and `true` when the loop exited by itself (`false` means
the fuel ran out, i.e. the loop had not finished after `fuel` iterations). -/
def processEventBuffer (parsePayload : List Nat → Option String) :
    Nat → List Nat → List String × List Nat × Bool
  | 0, buffer => ([], buffer, false)
  | fuel + 1, buffer =>
    if buffer.length = 0 then ([], buffer, true)
    else if buffer.length < 12 then ([], buffer, true)
    else
      let totalLength := (readUInt32BE buffer 0).getD 0
      if buffer.length < totalLength then ([], buffer, true)
      else
        let message := buffer.take totalLength
        let rest := buffer.drop totalLength
        let evs := parseEventFrame parsePayload message
        let r := processEventBuffer parsePayload fuel rest
        (evs ++ r.1, r.2.1, r.2.2)

/-- One received data chunk: append the chunk to the carried
buffer and run the loop.  The fuel `length + 1` is enough for every run in
which each consumed frame has a positive declared length. -/
def feedChunk (parsePayload : List Nat → Option String)
    (st chunk : List Nat) : List String × List Nat × Bool :=
  processEventBuffer parsePayload ((st ++ chunk).length + 1) (st ++ chunk)

/-- Feeding a sequence of chunks through the decoder, starting from buffer
`st`.  Once an iteration fails to finish (the loop diverged) no further
chunk is processed, mirroring the blocked Node event loop. -/
def runDecoderFrom (parsePayload : List Nat → Option String)
    (st : List Nat) : List (List Nat) → List String × Bool
  | [] => ([], true)
  | c :: cs =>
    let r := feedChunk parsePayload st c
    if r.2.2 then
      let r2 := runDecoderFrom parsePayload r.2.1 cs
      (r.1 ++ r2.1, r2.2)
    else
      (r.1, false)

/-- The decoder run on a whole chunk sequence from an empty buffer. -/
def runDecoder (parsePayload : List Nat → Option String)
    (cs : List (List Nat)) : List String × Bool :=
  runDecoderFrom parsePayload [] cs

/-- A well-formed frame: the first four bytes hold, big-endian, exactly the
length of the frame, and the frame is at least as long as the 12-byte prelude. -/
def FrameOK (f : List Nat) : Prop :=
  (readUInt32BE f 0).getD 0 = f.length ∧ 12 ≤ f.length

instance (f : List Nat) : Decidable (FrameOK f) := by
  unfold FrameOK; infer_instance

/-- The payload bytes of a frame, as sliced by the decoder. -/
def framePayload (message : List Nat) : List Nat :=
  bufSlice message (12 + (readUInt32BE message 4).getD 0) (message.length - 4)

/-- The frames fully contained in a buffer, with the events they produce,
the leftover bytes, and the frames not yet (fully) received. -/
def splitRun (parsePayload : List Nat → Option String) :
    List (List Nat) → List Nat → List String × List Nat × List (List Nat)
  | [], b => ([], b, [])
  | f :: rest, b =>
    if f.length ≤ b.length then
      let r := splitRun parsePayload rest (b.drop f.length)
      (parseEventFrame parsePayload f ++ r.1, r.2.1, r.2.2)
    else
      ([], b, f :: rest)

/-! ### Decoder lemmas -/

/-- The declared total length read by the loop head (line 263). -/
def declaredLen (b : List Nat) : Nat :=
  (readUInt32BE b 0).getD 0

/-- A buffer on which the loop breaks at once: either shorter than the
prelude or shorter than its declared total length. -/
def Stuck (p : List Nat) : Prop :=
  p.length < 12 ∨ p.length < declaredLen p

/-! ### Data model (spec section 3, built from the source records) -/

/-- One sub-query as returned by `decomposeQuery` (fields `query`/`intent`
of the objects the source resolves). -/
structure SubQuery where
  query : String
  intent : String
deriving DecidableEq, Repr

/-- A sub-query with orchestration bookkeeping (`subQueriesWithIds`,
lines 687 and 691-696). -/
structure SubQueryW where
  id : String
  query : String
  intent : String
  status : String
deriving DecidableEq, Repr

/-- A normalized hit (the object built at lines 624-636). -/
structure SourceHit where
  id : String
  title : String
  code : String
  sourceType : String
  ichType : String
  snippet : String
  fullText : String
  relevanceScore : ℚ
  pageNumbers : String
  sourceUrl : String
  headerPath : String
deriving DecidableEq, Repr

/-- An outbound SSE message (the argument of every `send(...)` call). -/
inductive PEvent where
  | step (name status : String)
  | subQueries (sqs : List SubQueryW)
  | subQueryStatus (id status : String) (resultCount : Option Nat)
  | sources (hits : List SourceHit)
  | answerChunk (text : String)
  | error (message : String)
  | done
deriving DecidableEq, Repr

def PEvent.isTerminal : PEvent → Bool
  | .done => true
  | .error _ => true
  | _ => false

def PEvent.isSources : PEvent → Bool
  | .sources _ => true
  | _ => false

def PEvent.isAnswerChunk : PEvent → Bool
  | .answerChunk _ => true
  | _ => false

/-! ### Query decomposition (`decomposeQuery`, lines 453-572)

The Bedrock HTTP exchange is an oracle describing which of the
response-handling paths of the source fires; the fallback logic itself is
translated from the code. -/

/-- The value found at `parsed.subQueries` after the extracted JSON text has
been parsed (line 553-554).  `nullish` stands for a present field whose
value is falsy in JS (`null`, `false`, `0`, `""`); `arr` for an array of
sub-query objects. -/
inductive SubQueriesField where
  | missing
  | nullish
  | arr (l : List SubQuery)
deriving DecidableEq

/-- What `JSON.parse` of the brace-extracted model text yields:
`notJson` models a thrown parse error (caught at line 559). -/
inductive ContentJson where
  | notJson
  | obj (f : SubQueriesField)
deriving DecidableEq

/-- The observable outcome of the decomposition HTTP call:
transport error (line 565), a body `JSON.parse` failure (line 559), a
response without `output.message.content[0].text` (line 555), or content
text together with what parsing it yields. -/
inductive DecomposeReply where
  | transportError
  | badJson
  | noContent
  | content (c : ContentJson)
deriving DecidableEq

/-- `decomposeQuery(query)` as a function of the reply oracle.  Every
failure path resolves the single main-query fallback entry; a present,
truthy `subQueries` array (note: `[]` is truthy in JS) is resolved as-is
(line 554). -/
def decomposeQuery (query : String) (reply : DecomposeReply) : List SubQuery :=
  match reply with
  | .transportError => [⟨query, "main query"⟩]
  | .badJson => [⟨query, "main query"⟩]
  | .noContent => [⟨query, "main query"⟩]
  | .content .notJson => [⟨query, "main query"⟩]
  | .content (.obj .missing) => [⟨query, "main query"⟩]
  | .content (.obj .nullish) => [⟨query, "main query"⟩]
  | .content (.obj (.arr l)) => l

/-! ### OpenSearch retrieval (`searchDocuments`, lines 577-641) -/

/-- One raw OpenSearch hit (`hit._id`, `hit._score`, `hit._source` fields
used at lines 624-636); absent JSON fields are `none`. -/
structure RawSource where
  title : Option String
  full_name : Option String
  section_title : Option String
  code : Option String
  source_type : Option String
  ich_type : Option String
  original_text : Option String
  contextualized_text : Option String
  page_citation : Option String
  source_url : Option String
  header_path : Option String
deriving DecidableEq

structure RawHit where
  hitId : String
  source : RawSource
  score : Option ℚ
deriving DecidableEq

/-- The observable outcome of the signed `_search` call
(`makeSignedRequest`): a transport error (rejected promise) or a status
plus the optional `data.hits.hits` array. -/
inductive SearchReply where
  | transportError
  | response (status : Nat) (hits : Option (List RawHit))
deriving DecidableEq

/-- JS `a || b` for optional strings: absent and `""` are both falsy. -/
def strOr (a : Option String) (b : String) : String :=
  match a with
  | some s => if s = "" then b else s
  | none => b

/-- JS `String.prototype.substring(0, n)`. -/
def jsSubstringTo (s : String) (n : Nat) : String :=
  String.mk (s.data.take n)

/-- The hit normalization of lines 624-636. -/
def normalizeHit (h : RawHit) : SourceHit :=
  { id := h.hitId
    title := strOr h.source.title
      (strOr h.source.full_name (strOr h.source.section_title "Untitled"))
    code := strOr h.source.code ""
    sourceType := strOr h.source.source_type "doc"
    ichType := strOr h.source.ich_type ""
    snippet := jsSubstringTo (strOr h.source.original_text "") 200 ++ "..."
    fullText := strOr h.source.original_text
      (strOr h.source.contextualized_text "")
    relevanceScore := h.score.getD 0
    pageNumbers := strOr h.source.page_citation ""
    sourceUrl := strOr h.source.source_url ""
    headerPath := strOr h.source.header_path "" }

/-- `searchDocuments(query, embedding, size)`: transport errors and
non-200 statuses yield `[]` (lines 616-619 and 637-640); otherwise the
`hits.hits` array (`[]` when absent, line 621) is normalized.  The `query`,
`embedding` and `size` arguments only shape the outbound request body. -/
def searchDocuments (_query : String) (_embedding : List ℚ) (_size : Nat)
    (reply : SearchReply) : List SourceHit :=
  match reply with
  | .transportError => []
  | .response status hits =>
    if status ≠ 200 then []
    else (hits.getD []).map normalizeHit

/-! ### Deduplication, ranking, truncation (lines 729-741) -/

/-- One step of the `uniqueSourcesMap` update (lines 731-735): a map
entry is replaced only by a strictly higher score; a new id is appended
(JS `Map` preserves first-insertion key order). -/
def upsertHit : List SourceHit → SourceHit → List SourceHit
  | [], s => [s]
  | h :: t, s =>
    if h.id = s.id then
      (if s.relevanceScore > h.relevanceScore then s :: t else h :: t)
    else
      h :: upsertHit t s

/-- `Array.from(uniqueSourcesMap.values())` after inserting every hit. -/
def dedupById (l : List SourceHit) : List SourceHit :=
  l.foldl upsertHit []

/-- Stable insertion for the descending sort: the incoming element walks
past strictly greater scores only and is placed before the first score
less than or equal to its own.  `sortByScoreDesc` inserts the originally
earlier element into the sorted later elements, so before-tie placement
keeps tied elements in their original relative order. -/
def insertDesc (s : SourceHit) : List SourceHit → List SourceHit
  | [] => [s]
  | h :: t =>
    if h.relevanceScore ≤ s.relevanceScore then s :: h :: t
    else h :: insertDesc s t

/-- The stable sort `uniqueSources.sort((a, b) => b.relevanceScore -
a.relevanceScore)` (line 739).  ES2019 sort is stable; this insertion sort
is descending, a permutation, and keeps equal-score elements in input
order (`sortByScoreDesc_stable` states the filter characterization), and a
stable descending sort is unique, so it is extensionally the same function
as the source line. -/
def sortByScoreDesc : List SourceHit → List SourceHit
  | [] => []
  | x :: xs => insertDesc x (sortByScoreDesc xs)

/-- `topSources`: dedup, sort descending, truncate to 8 (lines 730-741). -/
def mergeTopSources (l : List SourceHit) : List SourceHit :=
  (sortByScoreDesc (dedupById l)).take 8

/-! ### Claude answer streaming (`streamClaude`, lines 143-344) -/

/-- A chat message (`role`/`content`), as assembled at lines 768-777. -/
structure ChatMessage where
  role : String
  content : String
deriving DecidableEq

/-- The observable outcome of the Bedrock `converse-stream` call:
a request error (line 336), a non-200 response whose drained body text is
`errorBody` (lines 240-248), or a 200 response delivering `bytes` chunk by
chunk, with `midError` a request error surfacing after the data (`none`
when the stream ends normally). -/
inductive StreamReply where
  | transportError (message : String)
  | badStatus (status : Nat) (errorBody : String)
  | ok200 (bytes : List (List Nat)) (midError : Option String)

/-- `streamClaude(messages, onChunk)`: the returned pair is the list of
texts passed to `onChunk` in order, and the settled state of the promise —
`some (.ok full)` for resolve, `some (.error m)` for reject, `none` when
the decode loop diverges and the promise never settles.  `messages` only
shapes the request body. -/
def streamClaude (parsePayload : List Nat → Option String)
    (_messages : List ChatMessage) (reply : StreamReply) :
    List String × Option (Except String String) :=
  match reply with
  | .transportError m => ([], some (.error m))
  | .badStatus status body =>
      ([], some (.error ("Claude API error: " ++ toString status ++ " - " ++ body)))
  | .ok200 bytes midError =>
      let r := runDecoder parsePayload bytes
      if r.2 then
        match midError with
        | none => (r.1, some (.ok (String.join r.1)))
        | some m => (r.1, some (.error m))
      else
        (r.1, none)

/-! ### The orchestrating handler (`handleRegulatorySearch`, lines 650-793) -/

/-- Per-sub-query oracle: either `generateEmbedding` rejects (any of its
failure modes, caught at line 721), or it resolves a vector and the
`_search` call has outcome `searchReply`. -/
inductive SqOracle where
  | embedFail
  | embedOk (embedding : List ℚ) (searchReply : SearchReply)

/-- The decompose stage (lines 684-699): in sources-only mode a single
synthetic sub-query, otherwise the decomposition call bracketed by its
step events. -/
def decomposeStage (reply : DecomposeReply) (query : String) (so : Bool) :
    List PEvent × List SubQueryW :=
  if so then
    ([], [⟨"sq-0", query, "main query", "pending"⟩])
  else
    let subs := decomposeQuery query reply
    let withIds := subs.enum.map fun p =>
      ⟨"sq-" ++ toString p.1, p.2.query, p.2.intent, "pending"⟩
    ([.step "decompose" "active", .subQueries withIds,
      .step "decompose" "complete"], withIds)

/-- One iteration of the `for (const sq of subQueriesWithIds)` loop
(lines 705-727). -/
def searchOne (so : Bool) (o : SqOracle) (sq : SubQueryW) :
    List PEvent × List SourceHit :=
  let pre := if so then [] else [PEvent.subQueryStatus sq.id "searching" none]
  match o with
  | .embedFail =>
      (pre ++ (if so then [] else [.subQueryStatus sq.id "complete" (some 0)]), [])
  | .embedOk emb sr =>
      let results := searchDocuments sq.query emb (if so then 10 else 5) sr
      (pre ++ (if so then []
        else [.subQueryStatus sq.id "complete" (some results.length)]), results)

/-- The whole retrieval loop, with the oracle indexed by loop position. -/
def searchLoop (so : Bool) (oracle : Nat → SqOracle) :
    Nat → List SubQueryW → List PEvent × List SourceHit
  | _, [] => ([], [])
  | i, sq :: rest =>
    let one := searchOne so (oracle i) sq
    let next := searchLoop so oracle (i + 1) rest
    (one.1 ++ next.1, one.2 ++ next.2)

/-- The fixed no-result answer text (line 756). -/
def noDocsMessage : String :=
  "No relevant documents found for your query. Please try rephrasing your question."

/-- The numbered citation context built from the top 5 sources
(lines 764-766). -/
def sourcesContext (tops : List SourceHit) : String :=
  String.intercalate "\n\n" ((tops.take 5).enum.map fun p =>
    "[" ++ toString (p.1 + 1) ++ "] " ++ p.2.title ++ " (" ++ p.2.code ++ ")\n"
      ++ p.2.fullText)

/-- The system + user message pair of lines 768-777. -/
def synthesisMessages (query : String) (tops : List SourceHit) : List ChatMessage :=
  [⟨"system",
    "You are a regulatory expert specializing in pharmaceutical and medical device regulations. Provide accurate, well-cited answers based on the provided sources. Use citations like [1], [2] to reference sources. Be concise but comprehensive. Format your response with clear paragraphs."⟩,
   ⟨"user",
    "Answer this regulatory question using the provided sources:\n\nQuestion: " ++ query
      ++ "\n\nSources:\n" ++ sourcesContext tops
      ++ "\n\nProvide a well-structured answer with citations to the numbered sources."⟩]

/-- Everything after the `sources` / `step search complete` events
(lines 745-792), together with whether the run reached `res.end()`
(`false` exactly when `streamClaude` never settles). -/
def synthesisTail (parsePayload : List Nat → Option String)
    (stream : StreamReply) (query : String) (so : Bool)
    (tops : List SourceHit) : List PEvent × Bool :=
  if so then ([.done], true)
  else if tops.length = 0 then
    ([.step "synthesize" "active", .answerChunk noDocsMessage,
      .step "synthesize" "complete", .done], true)
  else
    let r := streamClaude parsePayload (synthesisMessages query tops) stream
    match r.2 with
    | none => (.step "synthesize" "active" :: r.1.map .answerChunk, false)
    | some (.ok _) =>
        (.step "synthesize" "active" :: r.1.map .answerChunk
          ++ [.step "synthesize" "complete", .done], true)
    | some (.error m) =>
        (.step "synthesize" "active" :: r.1.map .answerChunk
          ++ [.error (if m = "" then "Search failed" else m)], true)

/-- `handleRegulatorySearch` for a request whose JSON body parsed to the
given `query` string and sources-only flag `so` (the truthiness of the
field `sources_only` of the body).  Returns the ordered list of SSE messages
written, and `true` iff the handler reached `res.end()` (it does not when
the synthesis stream diverges; see the decoder lemmas). -/
def runHandler (parsePayload : List Nat → Option String)
    (decReply : DecomposeReply) (oracle : Nat → SqOracle)
    (stream : StreamReply) (query : String) (so : Bool) : List PEvent × Bool :=
  if query = "" then ([.error "Query is required"], true)
  else
    let dec := decomposeStage decReply query so
    let loop := searchLoop so oracle 0 dec.2
    let tops := mergeTopSources loop.2
    let tail := synthesisTail parsePayload stream query so tops
    ([.step "analyze" "active", .step "analyze" "complete"] ++ dec.1
      ++ [.step "search" "active"] ++ loop.1
      ++ [.sources tops, .step "search" "complete"] ++ tail.1, tail.2)

/-! ### Request signer (`signRequest`, lines 34-102)

The `crypto` primitives are function parameters (`sha256hex` for
the hex sha256 digest of the `crypto` module, `hmac` for
its keyed sha256 digest); the parsed URL supplies `host` and
`pathname`, and the `x-amz-date` timestamp is an explicit argument. -/

structure UrlParts where
  host : String
  pathname : String
deriving DecidableEq

/-- JS `String.prototype.trim()`. -/
def jsTrim (s : String) : String :=
  String.mk (((s.data.dropWhile Char.isWhitespace).reverse.dropWhile
    Char.isWhitespace).reverse)

/-- JS `String.prototype.toUpperCase()` (ASCII range). -/
def jsToUpperCase (s : String) : String :=
  String.mk (s.data.map Char.toUpper)

/-- The four base headers, listed in the order produced by
`Object.keys(headers).sort()` (they are already alphabetical; keys are
lower-case, so `key.toLowerCase()` is the identity). -/
def signBaseHeaders (u : UrlParts) (bodyHash datetime : String) :
    List (String × String) :=
  [("content-type", "application/json"), ("host", u.host),
   ("x-amz-content-sha256", bodyHash), ("x-amz-date", datetime)]

/-- `canonicalHeaders` (lines 50-52): `key:value.trim()` joined by `\n`. -/
def canonicalHeadersOf (u : UrlParts) (bodyHash datetime : String) : String :=
  "content-type:" ++ jsTrim "application/json" ++ "\n"
    ++ "host:" ++ jsTrim u.host ++ "\n"
    ++ "x-amz-content-sha256:" ++ jsTrim bodyHash ++ "\n"
    ++ "x-amz-date:" ++ jsTrim datetime

/-- `signedHeaders` (line 54). -/
def signedHeadersStr : String :=
  "content-type;host;x-amz-content-sha256;x-amz-date"

/-- `canonicalUri` normalization (lines 57-60). -/
def canonicalUriOf (u : UrlParts) : String :=
  if u.pathname.startsWith "/" then u.pathname else "/" ++ u.pathname

/-- The canonical request (lines 65-72): the six components joined by
`\n` (the canonical query string is empty for POST). -/
def canonicalRequestOf (sha256hex : String → String) (method : String)
    (u : UrlParts) (body datetime : String) : String :=
  jsToUpperCase method ++ "\n"
    ++ canonicalUriOf u ++ "\n"
    ++ "" ++ "\n"
    ++ (canonicalHeadersOf u (sha256hex body) datetime ++ "\n") ++ "\n"
    ++ signedHeadersStr ++ "\n"
    ++ sha256hex body

/-- `credentialScope` (line 77); the date is the first 8 characters of the
compacted ISO timestamp. -/
def credentialScopeOf (region service datetime : String) : String :=
  String.mk (datetime.data.take 8) ++ "/" ++ region ++ "/" ++ service
    ++ "/aws4_request"

/-- `stringToSign` (lines 80-85). -/
def stringToSignOf (sha256hex : String → String) (region : String)
    (method : String) (u : UrlParts) (body service datetime : String) : String :=
  "AWS4-HMAC-SHA256" ++ "\n" ++ datetime ++ "\n"
    ++ credentialScopeOf region service datetime ++ "\n"
    ++ sha256hex (canonicalRequestOf sha256hex method u body datetime)

/-- The chained signing key (lines 90-93). -/
def signingKeyOf (hmac : String → String → String)
    (region secretKey service datetime : String) : String :=
  hmac (hmac (hmac (hmac ("AWS4" ++ secretKey)
    (String.mk (datetime.data.take 8))) region) service) "aws4_request"

/-- The final hex signature (line 94). -/
def awsSignature (sha256hex : String → String) (hmac : String → String → String)
    (region secretKey : String) (method : String) (u : UrlParts)
    (body service datetime : String) : String :=
  hmac (signingKeyOf hmac region secretKey service datetime)
    (stringToSignOf sha256hex region method u body service datetime)

/-- The authorization header value (line 97). -/
def authorizationOf (sha256hex : String → String) (hmac : String → String → String)
    (region secretKey accessKeyId : String) (method : String) (u : UrlParts)
    (body service datetime : String) : String :=
  "AWS4-HMAC-SHA256 Credential=" ++ accessKeyId ++ "/"
    ++ credentialScopeOf region service datetime
    ++ ", SignedHeaders=" ++ signedHeadersStr
    ++ ", Signature="
    ++ awsSignature sha256hex hmac region secretKey method u body service datetime

/-- `signRequest(method, url, body, service)` at a fixed timestamp: the
returned header map, in insertion order. -/
def signRequest (sha256hex : String → String) (hmac : String → String → String)
    (region secretKey accessKeyId : String) (method : String) (u : UrlParts)
    (body service datetime : String) : List (String × String) :=
  signBaseHeaders u (sha256hex body) datetime
    ++ [("authorization",
      authorizationOf sha256hex hmac region secretKey accessKeyId method u
        body service datetime)]

/-! ### Concrete sample inputs (used by witnesses, counterexamples and
failing-input evaluations) -/

/-- A payload parser that recognizes nothing (every payload malformed). -/
def parseNone : List Nat → Option String := fun _ => none

/-- A payload parser recognizing exactly the two-byte payload `[71, 71]`. -/
def parseGG : List Nat → Option String :=
  fun l => if l = [71, 71] then some "ok" else none

/-- A frame whose declared total length is 0. -/
def zeroLenFrame : List Nat := List.replicate 12 0

/-- A well-formed 18-byte frame with an empty headers block and the
2-byte payload `[71, 71]` before the 4-byte trailer. -/
def goodFrame : List Nat :=
  [0, 0, 0, 18, 0, 0, 0, 0, 0, 0, 0, 0, 71, 71, 0, 0, 0, 0]

/-- A well-formed 17-byte frame whose 1-byte payload `[66]` no parser
accepts (a corrupted payload). -/
def badFrame : List Nat :=
  [0, 0, 0, 17, 0, 0, 0, 0, 0, 0, 0, 0, 66, 0, 0, 0, 0]

/-- A sample raw OpenSearch hit. -/
def sampleRawHit : RawHit :=
  ⟨"d1", ⟨some "T", none, none, some "C", none, none, some "body",
    none, none, none, none⟩, some (mkRat 9 10)⟩

/-- A sub-query oracle whose retrieval always succeeds with one hit. -/
def oneHitOracle : Nat → SqOracle :=
  fun _ => .embedOk [] (.response 200 (some [sampleRawHit]))

/-- A sub-query oracle whose embedding call always rejects. -/
def failOracle : Nat → SqOracle := fun _ => .embedFail

/-- Two hits sharing one id with scores 0.4 and 0.9. -/
def hitLow : SourceHit :=
  ⟨"doc-1", "t", "", "doc", "", "", "", mkRat 4 10, "", "", ""⟩

def hitHigh : SourceHit :=
  ⟨"doc-1", "t", "", "doc", "", "", "", mkRat 9 10, "", "", ""⟩

/-- Two hits with distinct ids and the same score 0.5, for checking that
tied elements keep their collection order. -/
def tieFirst : SourceHit :=
  ⟨"tie-a", "t", "", "doc", "", "", "", mkRat 1 2, "", "", ""⟩

def tieSecond : SourceHit :=
  ⟨"tie-b", "t", "", "doc", "", "", "", mkRat 1 2, "", "", ""⟩

/-- Sample hash primitives for the signer: the identity as an injective
digest, and tagged concatenation as a per-key-injective keyed hash. -/
def shaSample : String → String := fun s => s

def hmacSample : String → String → String := fun k m => k ++ "|" ++ m

theorem processEventBuffer_stuck (parsePayload : List Nat → Option String)
    (fuel : Nat) (p : List Nat) (h : Stuck p) :
    processEventBuffer parsePayload (fuel + 1) p = ([], p, true) := by
  rcases h with h | h
  · by_cases h0 : p.length = 0
    · simp [processEventBuffer, h0]
    · simp [processEventBuffer, h0, h]
  · by_cases h0 : p.length = 0
    · simp [processEventBuffer, h0]
    · by_cases h12 : p.length < 12
      · simp [processEventBuffer, h0, h12]
      · simp only [processEventBuffer, h0, h12, if_false, if_true, declaredLen] at h ⊢
        simp [h]

/-- One-step unfolding of the loop body. -/
theorem processEventBuffer_succ_eq (parsePayload : List Nat → Option String)
    (fuel : Nat) (b : List Nat) :
    processEventBuffer parsePayload (fuel + 1) b =
      if b.length = 0 then ([], b, true)
      else if b.length < 12 then ([], b, true)
      else if b.length < (readUInt32BE b 0).getD 0 then ([], b, true)
      else
        (parseEventFrame parsePayload (b.take ((readUInt32BE b 0).getD 0)) ++
          (processEventBuffer parsePayload fuel
            (b.drop ((readUInt32BE b 0).getD 0))).1,
         (processEventBuffer parsePayload fuel
            (b.drop ((readUInt32BE b 0).getD 0))).2.1,
         (processEventBuffer parsePayload fuel
            (b.drop ((readUInt32BE b 0).getD 0))).2.2) := rfl

theorem processEventBuffer_fuel_succ (parsePayload : List Nat → Option String) :
    ∀ (fuel : Nat) (b : List Nat) (out : List String × List Nat × Bool),
      processEventBuffer parsePayload fuel b = out → out.2.2 = true →
      processEventBuffer parsePayload (fuel + 1) b = out := by
  intro fuel
  induction fuel with
  | zero =>
    intro b out h htrue
    simp [processEventBuffer] at h
    rw [← h] at htrue
    simp at htrue
  | succ n ih =>
    intro b out h htrue
    rw [processEventBuffer_succ_eq] at h
    rw [processEventBuffer_succ_eq]
    by_cases h0 : b.length = 0
    · simpa [h0] using h
    · by_cases h12 : b.length < 12
      · simpa [h0, h12] using h
      · by_cases hlt : b.length < (readUInt32BE b 0).getD 0
        · simpa [h0, h12, hlt] using h
        · simp only [h0, h12, hlt, if_false] at h ⊢
          have hrec : processEventBuffer parsePayload (n + 1)
              (b.drop ((readUInt32BE b 0).getD 0)) =
              processEventBuffer parsePayload n
                (b.drop ((readUInt32BE b 0).getD 0)) := by
            apply ih
            · rfl
            · rw [← h] at htrue
              simpa using htrue
          rw [hrec]
          exact h

theorem processEventBuffer_fuel_le (parsePayload : List Nat → Option String)
    {fuel fuel' : Nat} (hle : fuel ≤ fuel') (b : List Nat)
    (out : List String × List Nat × Bool)
    (h : processEventBuffer parsePayload fuel b = out) (htrue : out.2.2 = true) :
    processEventBuffer parsePayload fuel' b = out := by
  induction fuel' with
  | zero =>
    have : fuel = 0 := Nat.le_zero.mp hle
    rw [← this]; exact h
  | succ n ih =>
    rcases Nat.lt_or_ge fuel (n + 1) with hlt | hge
    · have := ih (Nat.lt_succ_iff.mp hlt)
      exact processEventBuffer_fuel_succ parsePayload n b out this htrue
    · have : fuel = n + 1 := Nat.le_antisymm hle hge
      rw [← this]; exact h

theorem readUInt32BE_append (f r : List Nat) (off : Nat) (h : off + 4 ≤ f.length) :
    readUInt32BE (f ++ r) off = readUInt32BE f off := by
  unfold readUInt32BE
  rw [List.getElem?_append_left (by omega), List.getElem?_append_left (by omega),
      List.getElem?_append_left (by omega), List.getElem?_append_left (by omega)]

/-- Consuming one complete, well-formed frame at the head of the buffer. -/
theorem processEventBuffer_cons_frame (parsePayload : List Nat → Option String)
    (f rest : List Nat) (fuel : Nat) (hOK : FrameOK f) :
    processEventBuffer parsePayload (fuel + 1) (f ++ rest) =
      (parseEventFrame parsePayload f ++
        (processEventBuffer parsePayload fuel rest).1,
       (processEventBuffer parsePayload fuel rest).2.1,
       (processEventBuffer parsePayload fuel rest).2.2) := by
  obtain ⟨hlen, h12⟩ := hOK
  have htot : (readUInt32BE (f ++ rest) 0).getD 0 = f.length := by
    rw [readUInt32BE_append f rest 0 (by omega)]
    exact hlen
  have h0 : ¬ (f ++ rest).length = 0 := by
    simp only [List.length_append]; omega
  have hlt12 : ¬ (f ++ rest).length < 12 := by
    simp only [List.length_append]; omega
  have hnl : ¬ (f ++ rest).length < (readUInt32BE (f ++ rest) 0).getD 0 := by
    rw [htot]; simp only [List.length_append]; omega
  have hnl2 : ¬ (f ++ rest).length < f.length := by
    simp only [List.length_append]; omega
  rw [processEventBuffer_succ_eq]
  simp only [h0, hlt12, hnl, hnl2, if_false, htot, List.take_left, List.drop_left]

theorem splitRun_spec (parsePayload : List Nat → Option String) :
    ∀ (fs : List (List Nat)) (b suffix : List Nat),
      (∀ f ∈ fs, FrameOK f) → b ++ suffix = fs.flatten →
      ∃ done,
        fs = done ++ (splitRun parsePayload fs b).2.2 ∧
        b = done.flatten ++ (splitRun parsePayload fs b).2.1 ∧
        (splitRun parsePayload fs b).1 =
          (done.map (parseEventFrame parsePayload)).flatten ∧
        (∃ suf2, (splitRun parsePayload fs b).2.1 ++ suf2 =
          (splitRun parsePayload fs b).2.2.flatten) ∧
        (∀ g gs, (splitRun parsePayload fs b).2.2 = g :: gs →
          (splitRun parsePayload fs b).2.1.length < g.length) := by
  intro fs
  induction fs with
  | nil =>
    intro b suffix _ hj
    simp only [List.flatten_nil] at hj
    have hb : b = [] := (List.append_eq_nil.mp hj).1
    refine ⟨[], by simp [splitRun], by simp [splitRun, hb], by simp [splitRun], ?_, ?_⟩
    · exact ⟨[], by simp [splitRun, hb]⟩
    · intro g gs hgs
      simp [splitRun] at hgs
  | cons f rest ih =>
    intro b suffix hOK hj
    rw [List.flatten_cons] at hj
    by_cases hle : f.length ≤ b.length
    · have htake : b.take f.length = f := by
        have h1 : (b ++ suffix).take f.length = b.take f.length :=
          List.take_append_of_le_length hle
        have h2 : (f ++ rest.flatten).take f.length = f := List.take_left f _
        rw [hj] at h1
        rw [h2] at h1
        exact h1.symm
      have hbsplit : b = f ++ b.drop f.length := by
        conv_lhs => rw [← List.take_append_drop f.length b]
        rw [htake]
      have hdrop : b.drop f.length ++ suffix = rest.flatten := by
        have : (f ++ b.drop f.length) ++ suffix = f ++ rest.flatten := by
          rw [← hbsplit]; exact hj
        rw [List.append_assoc] at this
        exact List.append_cancel_left this
      obtain ⟨done', hfs', hb', hev', hpre', hhead'⟩ :=
        ih (b.drop f.length) suffix (fun g hg => hOK g (List.mem_cons_of_mem f hg)) hdrop
      refine ⟨f :: done', ?_, ?_, ?_, ?_, ?_⟩
      · simp only [splitRun, hle, if_true, List.cons_append]
        exact congrArg (f :: ·) hfs'
      · simp only [splitRun, hle, if_true, List.flatten_cons, List.append_assoc]
        conv_lhs => rw [hbsplit]
        exact congrArg (f ++ ·) hb'
      · simp only [splitRun, hle, if_true, List.map_cons, List.flatten_cons]
        exact congrArg (parseEventFrame parsePayload f ++ ·) hev'
      · simpa only [splitRun, hle, if_true] using hpre'
      · intro g gs hgs
        simp only [splitRun, hle, if_true] at hgs ⊢
        exact hhead' g gs hgs
    · refine ⟨[], by simp [splitRun, hle], by simp [splitRun, hle],
        by simp [splitRun, hle], ?_, ?_⟩
      · exact ⟨suffix, by simpa [splitRun, hle] using hj⟩
      · intro g gs hgs
        simp only [splitRun, hle, if_false] at hgs ⊢
        obtain ⟨rfl, _⟩ : g = f ∧ gs = rest := by
          constructor <;> [exact (List.cons.injEq .. ▸ hgs).1.symm;
            exact (List.cons.injEq .. ▸ hgs).2.symm]
        omega

/-- On a buffer that is a prefix of a stream of well-formed frames, the
loop consumes exactly the fully received frames and finishes. -/
theorem processEventBuffer_front (parsePayload : List Nat → Option String) :
    ∀ (fs : List (List Nat)) (b suffix : List Nat),
      (∀ f ∈ fs, FrameOK f) → b ++ suffix = fs.flatten →
      processEventBuffer parsePayload (b.length + 1) b =
        ((splitRun parsePayload fs b).1, (splitRun parsePayload fs b).2.1, true) := by
  intro fs
  induction fs with
  | nil =>
    intro b suffix _ hj
    simp only [List.flatten_nil] at hj
    have hb : b = [] := (List.append_eq_nil.mp hj).1
    subst hb
    simp [processEventBuffer, splitRun]
  | cons f rest ih =>
    intro b suffix hOK hj
    rw [List.flatten_cons] at hj
    have hfOK : FrameOK f := hOK f (List.mem_cons_self f rest)
    by_cases hle : f.length ≤ b.length
    · have htake : b.take f.length = f := by
        have h1 : (b ++ suffix).take f.length = b.take f.length :=
          List.take_append_of_le_length hle
        have h2 : (f ++ rest.flatten).take f.length = f := List.take_left f _
        rw [hj] at h1; rw [h2] at h1; exact h1.symm
      have hbsplit : b = f ++ b.drop f.length := by
        conv_lhs => rw [← List.take_append_drop f.length b]
        rw [htake]
      have hdrop : b.drop f.length ++ suffix = rest.flatten := by
        have hx : (f ++ b.drop f.length) ++ suffix = f ++ rest.flatten := by
          rw [← hbsplit]; exact hj
        rw [List.append_assoc] at hx
        exact List.append_cancel_left hx
      have hrest := ih (b.drop f.length) suffix
        (fun g hg => hOK g (List.mem_cons_of_mem f hg)) hdrop
      have hfuel : (b.drop f.length).length + 1 ≤ b.length := by
        have h12 : 12 ≤ f.length := hfOK.2
        simp only [List.length_drop]
        omega
      have hrest' := processEventBuffer_fuel_le parsePayload hfuel _ _ hrest rfl
      calc processEventBuffer parsePayload (b.length + 1) b
          = processEventBuffer parsePayload (b.length + 1) (f ++ b.drop f.length) := by
            rw [← hbsplit]
        _ = (parseEventFrame parsePayload f ++
              (processEventBuffer parsePayload b.length (b.drop f.length)).1,
             (processEventBuffer parsePayload b.length (b.drop f.length)).2.1,
             (processEventBuffer parsePayload b.length (b.drop f.length)).2.2) :=
            processEventBuffer_cons_frame parsePayload f _ b.length hfOK
        _ = ((splitRun parsePayload (f :: rest) b).1,
             (splitRun parsePayload (f :: rest) b).2.1, true) := by
            rw [hrest']
            simp only [splitRun, hle, if_true]
    · have hstuck : Stuck b := by
        by_cases h12 : b.length < 12
        · exact Or.inl h12
        · refine Or.inr ?_
          have h4 : 4 ≤ b.length := by omega
          have hread : readUInt32BE b 0 = readUInt32BE f 0 := by
            unfold readUInt32BE
            have hget : ∀ i, i < 4 → b[i]? = f[i]? := by
              intro i hi
              have hbi : b[i]? = (b ++ suffix)[i]? :=
                (List.getElem?_append_left (by omega)).symm
              have hfi : (f ++ rest.flatten)[i]? = f[i]? :=
                List.getElem?_append_left (by omega)
              rw [hbi, hj, hfi]
            rw [hget 0 (by omega), hget 1 (by omega), hget 2 (by omega),
              hget 3 (by omega)]
          unfold declaredLen
          rw [hread]
          rw [hfOK.1]
          omega
      rw [processEventBuffer_stuck parsePayload b.length b hstuck]
      simp only [splitRun, hle, if_false]

/-- Running the chunked decoder over the remaining frame stream. -/
theorem runDecoderFrom_frames (parsePayload : List Nat → Option String) :
    ∀ (cs : List (List Nat)) (st : List Nat) (fs : List (List Nat)),
      (∀ f ∈ fs, FrameOK f) →
      st ++ cs.flatten = fs.flatten →
      (fs = [] → st = []) →
      (∀ g gs, fs = g :: gs → st.length < g.length) →
      runDecoderFrom parsePayload st cs =
        ((fs.map (parseEventFrame parsePayload)).flatten, true) := by
  intro cs
  induction cs with
  | nil =>
    intro st fs hOK hj hnil hcons
    simp only [List.flatten_nil, List.append_nil] at hj
    cases fs with
    | nil =>
      simp [runDecoderFrom]
    | cons g gs =>
      exfalso
      have hlen : st.length = (g :: gs).flatten.length := by rw [hj]
      rw [List.flatten_cons, List.length_append] at hlen
      have := hcons g gs rfl
      omega
  | cons c cs' ih =>
    intro st fs hOK hj hnil hcons
    have hj' : (st ++ c) ++ cs'.flatten = fs.flatten := by
      rw [List.append_assoc]
      simpa [List.flatten_cons] using hj
    obtain ⟨done, hfs, hb, hev, ⟨suf2, hsuf2⟩, hheadrem⟩ :=
      splitRun_spec parsePayload fs (st ++ c) cs'.flatten hOK hj'
    have hpeb := processEventBuffer_front parsePayload fs (st ++ c) cs'.flatten hOK hj'
    rcases hsp : splitRun parsePayload fs (st ++ c) with ⟨evs0, p0, rem0⟩
    rw [hsp] at hfs hb hev hsuf2 hheadrem hpeb
    simp only at hfs hb hev hsuf2 hheadrem hpeb
    have hfeed : feedChunk parsePayload st c = (evs0, p0, true) := hpeb
    have hOKrem : ∀ f ∈ rem0, FrameOK f := by
      intro f hf
      exact hOK f (hfs ▸ List.mem_append_right done hf)
    have hjrem : p0 ++ cs'.flatten = rem0.flatten := by
      have h1 : (done.flatten ++ p0) ++ cs'.flatten = fs.flatten := by
        rw [← hb]; exact hj'
      rw [hfs, List.flatten_append, List.append_assoc] at h1
      exact List.append_cancel_left h1
    have hnilrem : rem0 = [] → p0 = [] := by
      intro hrem
      rw [hrem] at hsuf2
      simp only [List.flatten_nil] at hsuf2
      exact (List.append_eq_nil.mp hsuf2).1
    have hih := ih p0 rem0 hOKrem hjrem hnilrem hheadrem
    show (let r := feedChunk parsePayload st c
      if r.2.2 then
        let r2 := runDecoderFrom parsePayload r.2.1 cs'
        (r.1 ++ r2.1, r2.2)
      else (r.1, false)) = _
    rw [hfeed]
    simp only [if_true]
    rw [hih, hev]
    rw [hfs, List.map_append, List.flatten_append]

/-! ### Deduplication and ranking lemmas -/

theorem mem_upsertHit : ∀ (t : List SourceHit) (s x : SourceHit),
    x ∈ upsertHit t s → x ∈ t ∨ x = s := by
  intro t
  induction t with
  | nil =>
    intro s x hx
    simp [upsertHit] at hx
    exact Or.inr hx
  | cons a t ih =>
    intro s x hx
    simp only [upsertHit] at hx
    by_cases hid : a.id = s.id
    · rw [if_pos hid] at hx
      by_cases hsc : s.relevanceScore > a.relevanceScore
      · rw [if_pos hsc] at hx
        rcases List.mem_cons.mp hx with h | h
        · exact Or.inr h
        · exact Or.inl (List.mem_cons_of_mem a h)
      · rw [if_neg hsc] at hx
        exact Or.inl hx
    · rw [if_neg hid] at hx
      rcases List.mem_cons.mp hx with h | h
      · exact Or.inl (h ▸ List.mem_cons_self a t)
      · rcases ih s x h with h2 | h2
        · exact Or.inl (List.mem_cons_of_mem a h2)
        · exact Or.inr h2

theorem pairwise_upsertHit : ∀ (t : List SourceHit) (s : SourceHit),
    t.Pairwise (fun a b => a.id ≠ b.id) →
    (upsertHit t s).Pairwise (fun a b => a.id ≠ b.id) := by
  intro t
  induction t with
  | nil =>
    intro s _
    simp [upsertHit]
  | cons a t ih =>
    intro s hpw
    rw [List.pairwise_cons] at hpw
    obtain ⟨ha, hpt⟩ := hpw
    simp only [upsertHit]
    by_cases hid : a.id = s.id
    · rw [if_pos hid]
      by_cases hsc : s.relevanceScore > a.relevanceScore
      · rw [if_pos hsc]
        rw [List.pairwise_cons]
        exact ⟨fun x hx => hid ▸ ha x hx, hpt⟩
      · rw [if_neg hsc]
        rw [List.pairwise_cons]
        exact ⟨ha, hpt⟩
    · rw [if_neg hid]
      rw [List.pairwise_cons]
      refine ⟨?_, ih s hpt⟩
      intro x hx
      rcases mem_upsertHit t s x hx with h | h
      · exact ha x h
      · rw [h]
        exact hid

theorem cover_upsertHit_old : ∀ (t : List SourceHit) (s : SourceHit) (i : String),
    (∃ h ∈ t, h.id = i) → ∃ h ∈ upsertHit t s, h.id = i := by
  intro t
  induction t with
  | nil =>
    intro s i hex
    simp at hex
  | cons a t ih =>
    intro s i hex
    simp only [upsertHit]
    obtain ⟨h0, hmem, hi⟩ := hex
    by_cases hid : a.id = s.id
    · rw [if_pos hid]
      by_cases hsc : s.relevanceScore > a.relevanceScore
      · rw [if_pos hsc]
        rcases List.mem_cons.mp hmem with hh | hh
        · exact ⟨s, List.mem_cons_self s t, by rw [← hid, ← hh]; exact hi⟩
        · exact ⟨h0, List.mem_cons_of_mem s hh, hi⟩
      · rw [if_neg hsc]
        exact ⟨h0, hmem, hi⟩
    · rw [if_neg hid]
      rcases List.mem_cons.mp hmem with hh | hh
      · exact ⟨a, List.mem_cons_self a _, by rw [← hh]; exact hi⟩
      · obtain ⟨h1, hm1, hi1⟩ := ih s i ⟨h0, hh, hi⟩
        exact ⟨h1, List.mem_cons_of_mem a hm1, hi1⟩

theorem cover_upsertHit_new : ∀ (t : List SourceHit) (s : SourceHit),
    ∃ h ∈ upsertHit t s, h.id = s.id := by
  intro t
  induction t with
  | nil =>
    intro s
    exact ⟨s, by simp [upsertHit]⟩
  | cons a t ih =>
    intro s
    simp only [upsertHit]
    by_cases hid : a.id = s.id
    · rw [if_pos hid]
      by_cases hsc : s.relevanceScore > a.relevanceScore
      · rw [if_pos hsc]
        exact ⟨s, List.mem_cons_self s t, rfl⟩
      · rw [if_neg hsc]
        exact ⟨a, List.mem_cons_self a t, hid⟩
    · rw [if_neg hid]
      obtain ⟨h1, hm1, hi1⟩ := ih s
      exact ⟨h1, List.mem_cons_of_mem a hm1, hi1⟩

theorem max_upsertHit : ∀ (t : List SourceHit) (pre : List SourceHit) (s : SourceHit),
    (∀ h ∈ t, h ∈ pre ∧
      ∀ h' ∈ pre, h'.id = h.id → h'.relevanceScore ≤ h.relevanceScore) →
    (∀ h' ∈ pre, h'.id = s.id → ∃ h ∈ t, h.id = s.id) →
    t.Pairwise (fun a b => a.id ≠ b.id) →
    ∀ h ∈ upsertHit t s, h ∈ pre ++ [s] ∧
      ∀ h' ∈ pre ++ [s], h'.id = h.id → h'.relevanceScore ≤ h.relevanceScore := by
  intro t
  induction t with
  | nil =>
    intro pre s _ hcov _ h hh
    simp only [upsertHit, List.mem_singleton] at hh
    subst hh
    refine ⟨List.mem_append_right pre (List.mem_singleton.mpr rfl), ?_⟩
    intro h' hh' hid
    rcases List.mem_append.mp hh' with hp | hp
    · exact absurd (hcov h' hp hid) (by simp)
    · rw [List.mem_singleton.mp hp]
  | cons a t ih =>
    intro pre s hmem hcov hpw h hh
    rw [List.pairwise_cons] at hpw
    obtain ⟨hane, hpt⟩ := hpw
    simp only [upsertHit] at hh
    by_cases hid : a.id = s.id
    · rw [if_pos hid] at hh
      by_cases hsc : s.relevanceScore > a.relevanceScore
      · -- the stored hit is replaced by `s`
        rw [if_pos hsc] at hh
        rcases List.mem_cons.mp hh with hcase | hcase
        · subst hcase
          refine ⟨List.mem_append_right pre (List.mem_singleton.mpr rfl), ?_⟩
          intro h' hh' hid'
          rcases List.mem_append.mp hh' with hp | hp
          · have hmax := (hmem a (List.mem_cons_self a t)).2 h' hp
              (by rw [hid']; exact hid.symm)
            exact le_trans hmax (le_of_lt hsc)
          · rw [List.mem_singleton.mp hp]
        · have hbase := hmem h (List.mem_cons_of_mem a hcase)
          refine ⟨List.mem_append_left _ hbase.1, ?_⟩
          intro h' hh' hid'
          rcases List.mem_append.mp hh' with hp | hp
          · exact hbase.2 h' hp hid'
          · exfalso
            rw [List.mem_singleton.mp hp] at hid'
            exact hane h hcase (hid.trans hid')
      · -- the stored hit `a` is kept
        rw [if_neg hsc] at hh
        rcases List.mem_cons.mp hh with hcase | hcase
        · subst hcase
          have hbase := hmem h (List.mem_cons_self h t)
          refine ⟨List.mem_append_left _ hbase.1, ?_⟩
          intro h' hh' hid'
          rcases List.mem_append.mp hh' with hp | hp
          · exact hbase.2 h' hp hid'
          · rw [List.mem_singleton.mp hp]
            exact le_of_not_lt hsc
        · have hbase := hmem h (List.mem_cons_of_mem a hcase)
          refine ⟨List.mem_append_left _ hbase.1, ?_⟩
          intro h' hh' hid'
          rcases List.mem_append.mp hh' with hp | hp
          · exact hbase.2 h' hp hid'
          · exfalso
            rw [List.mem_singleton.mp hp] at hid'
            exact hane h hcase (hid.trans hid')
    · rw [if_neg hid] at hh
      rcases List.mem_cons.mp hh with hcase | hcase
      · subst hcase
        have hbase := hmem h (List.mem_cons_self h t)
        refine ⟨List.mem_append_left _ hbase.1, ?_⟩
        intro h' hh' hid'
        rcases List.mem_append.mp hh' with hp | hp
        · exact hbase.2 h' hp hid'
        · exfalso
          rw [List.mem_singleton.mp hp] at hid'
          exact hid hid'.symm
      · refine ih pre s ?_ ?_ hpt h hcase
        · intro h2 hm2
          exact hmem h2 (List.mem_cons_of_mem a hm2)
        · intro h' hp hid'
          obtain ⟨h2, hm2, hi2⟩ := hcov h' hp hid'
          rcases List.mem_cons.mp hm2 with hh2 | hh2
          · exact absurd (hh2 ▸ hi2) hid
          · exact ⟨h2, hh2, hi2⟩

/-- Combined invariant of the `uniqueSourcesMap` fold. -/
theorem dedup_fold_invariant : ∀ (l acc pre : List SourceHit),
    (∀ h ∈ acc, h ∈ pre ∧
      ∀ h' ∈ pre, h'.id = h.id → h'.relevanceScore ≤ h.relevanceScore) →
    (∀ h' ∈ pre, ∃ h ∈ acc, h.id = h'.id) →
    acc.Pairwise (fun a b => a.id ≠ b.id) →
    (∀ h ∈ l.foldl upsertHit acc, h ∈ pre ++ l ∧
      ∀ h' ∈ pre ++ l, h'.id = h.id → h'.relevanceScore ≤ h.relevanceScore) ∧
    (∀ h' ∈ pre ++ l, ∃ h ∈ l.foldl upsertHit acc, h.id = h'.id) ∧
    (l.foldl upsertHit acc).Pairwise (fun a b => a.id ≠ b.id) := by
  intro l
  induction l with
  | nil =>
    intro acc pre hmem hcov hpw
    simpa using ⟨hmem, hcov, hpw⟩
  | cons s l' ih =>
    intro acc pre hmem hcov hpw
    have hstep := ih (upsertHit acc s) (pre ++ [s]) ?_ ?_ ?_
    · simpa [List.append_assoc] using hstep
    · exact max_upsertHit acc pre s hmem
        (fun h' hp hid => (hcov h' hp).imp fun h hh => ⟨hh.1, hh.2.trans hid⟩) hpw
    · intro h' hp
      rcases List.mem_append.mp hp with hp1 | hp1
      · obtain ⟨h, hh, hi⟩ := hcov h' hp1
        obtain ⟨h2, hm2, hi2⟩ := cover_upsertHit_old acc s h'.id ⟨h, hh, hi⟩
        exact ⟨h2, hm2, hi2⟩
      · rw [List.mem_singleton.mp hp1]
        obtain ⟨h2, hm2, hi2⟩ := cover_upsertHit_new acc s
        exact ⟨h2, hm2, hi2⟩
    · exact pairwise_upsertHit acc s hpw

/-- The deduplicated list contains, for each id in the input, exactly one
hit, and that hit realizes the maximum relevance score for its id. -/
theorem dedupById_spec (l : List SourceHit) :
    (∀ h ∈ dedupById l, h ∈ l ∧
      ∀ h' ∈ l, h'.id = h.id → h'.relevanceScore ≤ h.relevanceScore) ∧
    (∀ h' ∈ l, ∃ h ∈ dedupById l, h.id = h'.id) ∧
    (dedupById l).Pairwise (fun a b => a.id ≠ b.id) := by
  have := dedup_fold_invariant l [] [] (by simp) (by simp) (by simp)
  simpa [dedupById] using this

/-! ### Sorting lemmas -/

theorem mem_insertDesc : ∀ (t : List SourceHit) (s x : SourceHit),
    x ∈ insertDesc s t ↔ x = s ∨ x ∈ t := by
  intro t
  induction t with
  | nil =>
    intro s x
    simp [insertDesc]
  | cons h t ih =>
    intro s x
    simp only [insertDesc]
    by_cases hc : h.relevanceScore ≤ s.relevanceScore
    · rw [if_pos hc]
      simp [List.mem_cons]
    · rw [if_neg hc]
      rw [List.mem_cons, ih, List.mem_cons]
      tauto

theorem perm_insertDesc : ∀ (t : List SourceHit) (s : SourceHit),
    (insertDesc s t).Perm (s :: t) := by
  intro t
  induction t with
  | nil =>
    intro s
    simp [insertDesc]
  | cons h t ih =>
    intro s
    simp only [insertDesc]
    by_cases hc : h.relevanceScore ≤ s.relevanceScore
    · rw [if_pos hc]
    · rw [if_neg hc]
      exact (List.Perm.cons h (ih s)).trans (List.Perm.swap s h t)

theorem sorted_insertDesc : ∀ (t : List SourceHit) (s : SourceHit),
    t.Pairwise (fun a b => b.relevanceScore ≤ a.relevanceScore) →
    (insertDesc s t).Pairwise (fun a b => b.relevanceScore ≤ a.relevanceScore) := by
  intro t
  induction t with
  | nil =>
    intro s _
    simp [insertDesc]
  | cons h t ih =>
    intro s hpw
    rw [List.pairwise_cons] at hpw
    obtain ⟨hh, hpt⟩ := hpw
    simp only [insertDesc]
    by_cases hc : h.relevanceScore ≤ s.relevanceScore
    · rw [if_pos hc]
      rw [List.pairwise_cons]
      refine ⟨?_, List.pairwise_cons.mpr ⟨hh, hpt⟩⟩
      intro x hx
      rcases List.mem_cons.mp hx with hxh | hxt
      · rw [hxh]
        exact hc
      · exact le_trans (hh x hxt) hc
    · rw [if_neg hc]
      rw [List.pairwise_cons]
      refine ⟨?_, ih s hpt⟩
      intro x hx
      rcases (mem_insertDesc t s x).mp hx with hxs | hxt
      · rw [hxs]
        exact le_of_not_le hc
      · exact hh x hxt

theorem sortByScoreDesc_perm : ∀ (l : List SourceHit),
    (sortByScoreDesc l).Perm l := by
  intro l
  induction l with
  | nil => simp [sortByScoreDesc]
  | cons x xs ih =>
    simp only [sortByScoreDesc]
    exact (perm_insertDesc (sortByScoreDesc xs) x).trans (List.Perm.cons x ih)

theorem sortByScoreDesc_sorted : ∀ (l : List SourceHit),
    (sortByScoreDesc l).Pairwise (fun a b => b.relevanceScore ≤ a.relevanceScore) := by
  intro l
  induction l with
  | nil => simp [sortByScoreDesc]
  | cons x xs ih =>
    simp only [sortByScoreDesc]
    exact sorted_insertDesc (sortByScoreDesc xs) x ih

/-- Filtering to one score value commutes with the insertion: the walked
prefix holds strictly greater scores only, so an element is inserted
before every element of its own score. -/
theorem filter_insertDesc (q : ℚ) : ∀ (t : List SourceHit) (s : SourceHit),
    (insertDesc s t).filter (fun h => h.relevanceScore = q) =
      if s.relevanceScore = q then
        s :: t.filter (fun h => h.relevanceScore = q)
      else
        t.filter (fun h => h.relevanceScore = q) := by
  intro t
  induction t with
  | nil =>
    intro s
    by_cases hq : s.relevanceScore = q
    · simp [insertDesc, List.filter_cons, hq]
    · simp [insertDesc, List.filter_cons, hq]
  | cons h t ih =>
    intro s
    simp only [insertDesc]
    by_cases hc : h.relevanceScore ≤ s.relevanceScore
    · rw [if_pos hc]
      by_cases hq : s.relevanceScore = q
      · simp [List.filter_cons, hq]
      · simp [List.filter_cons, hq]
    · rw [if_neg hc]
      by_cases hq : s.relevanceScore = q
      · have hph : ¬ h.relevanceScore = q := by
          intro hcontra
          apply hc
          rw [hcontra, ← hq]
        simp [List.filter_cons, hph, ih s, hq]
      · by_cases hph : h.relevanceScore = q
        · simp [List.filter_cons, hph, ih s, hq]
        · simp [List.filter_cons, hph, ih s, hq]

/-- Stability of the sort: for every score value, the equal-score elements
appear in the output in their input order (together with sortedness and
the permutation property this pins the function down as the unique stable
descending sort, i.e. the ES2019 `sort` of line 739). -/
theorem sortByScoreDesc_stable (q : ℚ) : ∀ (l : List SourceHit),
    (sortByScoreDesc l).filter (fun h => h.relevanceScore = q) =
      l.filter (fun h => h.relevanceScore = q) := by
  intro l
  induction l with
  | nil => rfl
  | cons x xs ih =>
    simp only [sortByScoreDesc]
    rw [filter_insertDesc q (sortByScoreDesc xs) x]
    by_cases hq : x.relevanceScore = q
    · simp [List.filter_cons, hq, ih]
    · simp [List.filter_cons, hq, ih]

theorem mergeTopSources_sorted (l : List SourceHit) :
    (mergeTopSources l).Pairwise
      (fun a b => b.relevanceScore ≤ a.relevanceScore) :=
  (sortByScoreDesc_sorted (dedupById l)).sublist (List.take_sublist 8 _)

theorem mergeTopSources_length (l : List SourceHit) :
    (mergeTopSources l).length ≤ 8 := by
  unfold mergeTopSources
  rw [List.length_take]
  omega

/-! ### Frame-level corruption lemma and the decoder claims -/

theorem parseEventFrame_corrupt (parsePayload : List Nat → Option String)
    (f : List Nat) (h : parsePayload (framePayload f) = none) :
    parseEventFrame parsePayload f = [] := by
  cases hr : readUInt32BE f 4 with
  | none => simp only [parseEventFrame, hr]
  | some hl =>
    have hp : bufSlice f (12 + hl) (f.length - 4) = framePayload f := by
      unfold framePayload
      rw [hr]
      rfl
    cases hh : parseHeadersLoop f (12 + hl) "" 12 with
    | none => simp only [parseEventFrame, hr, hh]
    | some et =>
      simp only [parseEventFrame, hr, hh, hp, h]
      simp

/-- C5: for any stream that is the concatenation of well-formed frames,
feeding the decoder any chunking of the bytes produces exactly the
concatenation of the per-frame events — so every chunking (in particular a
three-way split of one frame) yields the same events as a single chunk —
and a frame whose payload is malformed contributes zero events while every
other frame still contributes its own. -/
theorem decode_chunking_invariant (parsePayload : List Nat → Option String)
    (fs cs : List (List Nat)) (hOK : ∀ f ∈ fs, FrameOK f)
    (hjoin : cs.flatten = fs.flatten) :
    runDecoder parsePayload cs =
      ((fs.map (parseEventFrame parsePayload)).flatten, true) ∧
    (∀ f : List Nat, parsePayload (framePayload f) = none →
      parseEventFrame parsePayload f = []) := by
  constructor
  · apply runDecoderFrom_frames parsePayload cs [] fs hOK
    · simpa using hjoin
    · intro _
      rfl
    · intro g gs hfs
      have := (hOK g (hfs ▸ List.mem_cons_self g gs)).2
      simp
      omega
  · intro f hf
    exact parseEventFrame_corrupt parsePayload f hf

theorem decode_chunking_invariant_witness :
    ((∀ f ∈ [badFrame, goodFrame], FrameOK f) ∧
      [(badFrame ++ goodFrame).take 5, ((badFrame ++ goodFrame).drop 5).take 20,
        (badFrame ++ goodFrame).drop 25].flatten = [badFrame, goodFrame].flatten) ∧
    (runDecoder parseGG [(badFrame ++ goodFrame).take 5,
        ((badFrame ++ goodFrame).drop 5).take 20, (badFrame ++ goodFrame).drop 25] =
      (([badFrame, goodFrame].map (parseEventFrame parseGG)).flatten, true) ∧
    (∀ f : List Nat, parseGG (framePayload f) = none →
      parseEventFrame parseGG f = [])) :=
  ⟨⟨by decide, by decide⟩,
    decode_chunking_invariant parseGG [badFrame, goodFrame] _ (by decide) (by decide)⟩

/-- C6 (code bug): a received chunk whose first frame declares total
length 0 makes the `while (buffer.length > 0)` loop run forever — each
iteration consumes `slice(0)`, i.e. zero bytes, leaving the buffer
unchanged — so no amount of fuel completes the loop; the processing of
such a chunk does not terminate, contradicting the claimed termination for
zero declared length. -/
theorem decode_zero_length_diverges (parsePayload : List Nat → Option String) :
    ∀ fuel : Nat, processEventBuffer parsePayload fuel zeroLenFrame =
      ([], zeroLenFrame, false) := by
  intro fuel
  induction fuel with
  | zero => rfl
  | succ n ih =>
    rw [processEventBuffer_succ_eq]
    have h1 : ¬ zeroLenFrame.length = 0 := by decide
    have h2 : ¬ zeroLenFrame.length < 12 := by decide
    have h3 : (readUInt32BE zeroLenFrame 0).getD 0 = 0 := by decide
    rw [if_neg h1, if_neg h2, h3]
    have h4 : ¬ zeroLenFrame.length < 0 := by decide
    rw [if_neg h4]
    rw [List.take_zero, List.drop_zero, ih]
    rfl

/-! ### Decomposition claims -/

/-- C4: if the decomposition call suffers a transport error, returns a
non-JSON response, or returns a response missing the expected content or
`subQueries` field, then `decomposeQuery` resolves exactly one sub-query
whose text is the original query and whose intent is `"main query"`. -/
theorem decompose_fallback_single (query : String) (reply : DecomposeReply)
    (h : reply = .transportError ∨ reply = .badJson ∨ reply = .noContent ∨
      reply = .content .notJson ∨ reply = .content (.obj .missing)) :
    decomposeQuery query reply = [⟨query, "main query"⟩] := by
  rcases h with rfl | rfl | rfl | rfl | rfl <;> rfl

theorem decompose_fallback_single_witness :
    (DecomposeReply.transportError = .transportError ∨
      DecomposeReply.transportError = .badJson ∨
      DecomposeReply.transportError = .noContent ∨
      DecomposeReply.transportError = .content .notJson ∨
      DecomposeReply.transportError = .content (.obj .missing)) ∧
    decomposeQuery "what are the rules" .transportError =
      [⟨"what are the rules", "main query"⟩] :=
  ⟨Or.inl rfl, decompose_fallback_single "what are the rules" .transportError (Or.inl rfl)⟩

/-- C10 (counterexample to the claim as stated): with a response that
parses successfully to an object whose `subQueries` field is present but
`null` (falsy), the code still applies the single-query fallback — so the
fallback is not applied only on absent field or parse failure. -/
theorem decompose_null_field_fallback :
    decomposeQuery "q" (.content (.obj .nullish)) = [⟨"q", "main query"⟩] ∧
    SubQueriesField.nullish ≠ SubQueriesField.missing := by
  exact ⟨rfl, by decide⟩

/-- C10 (amended): a present `subQueries` array — the empty array
included, since `[]` is truthy in JS — is returned as-is, so an empty
array reaches the search stage as zero sub-queries and the run emits a
`sources` event with zero entries; the single-query fallback is applied
exactly when the value of the field is not a (JSON) array: call error, non-JSON
response, missing content, absent field, or a falsy field value such as
`null`. -/
theorem decompose_empty_array_passthrough :
    (∀ q, decomposeQuery q (.content (.obj (.arr []))) = []) ∧
    (∀ q l, decomposeQuery q (.content (.obj (.arr l))) = l) ∧
    (∀ q (r : DecomposeReply), (∀ l, r ≠ .content (.obj (.arr l))) →
      decomposeQuery q r = [⟨q, "main query"⟩]) ∧
    (∀ (parsePayload : List Nat → Option String) (oracle : Nat → SqOracle)
      (stream : StreamReply) (q : String), q ≠ "" →
      ∃ front tail,
        (runHandler parsePayload (.content (.obj (.arr []))) oracle stream q false).1 =
          front ++ .sources [] :: tail) := by
  refine ⟨fun q => rfl, fun q l => rfl, ?_, ?_⟩
  · intro q r hr
    cases r with
    | transportError => rfl
    | badJson => rfl
    | noContent => rfl
    | content c =>
      cases c with
      | notJson => rfl
      | obj f =>
        cases f with
        | missing => rfl
        | nullish => rfl
        | arr l => exact absurd rfl (hr l)
  · intro parsePayload oracle stream q hq
    refine ⟨[.step "analyze" "active", .step "analyze" "complete",
      .step "decompose" "active", .subQueries [], .step "decompose" "complete",
      .step "search" "active"],
      .step "search" "complete" ::
        (synthesisTail parsePayload stream q false (mergeTopSources [])).1, ?_⟩
    simp only [runHandler, if_neg hq, decomposeStage, decomposeQuery,
      List.enum_nil, List.map_nil, searchLoop]
    rfl

theorem decompose_empty_array_passthrough_witness :
    (decomposeQuery "qq" (.content (.obj (.arr []))) = []) ∧
    (decomposeQuery "qq" (.content (.obj (.arr [⟨"a", "b"⟩]))) = [⟨"a", "b"⟩]) ∧
    (decomposeQuery "qq" .badJson = [⟨"qq", "main query"⟩]) ∧
    (∃ front tail,
      (runHandler parseNone (.content (.obj (.arr []))) failOracle
        (.transportError "x") "qq" false).1 = front ++ .sources [] :: tail) :=
  ⟨decompose_empty_array_passthrough.1 "qq",
   decompose_empty_array_passthrough.2.1 "qq" [⟨"a", "b"⟩],
   decompose_empty_array_passthrough.2.2.1 "qq" .badJson (fun l h => nomatch h),
   decompose_empty_array_passthrough.2.2.2 parseNone failOracle
     (.transportError "x") "qq" (by decide)⟩

/-! ### Retrieval failure claim -/

/-- C7: for every query text, embedding vector and size hint, a transport
error or a non-200 index response makes `searchDocuments` return the empty
list instead of raising. -/
theorem search_failure_yields_empty (q : String) (emb : List ℚ) (size : Nat)
    (reply : SearchReply)
    (h : reply = .transportError ∨
      ∃ status hits, reply = .response status hits ∧ status ≠ 200) :
    searchDocuments q emb size reply = [] := by
  rcases h with rfl | ⟨status, hits, rfl, hs⟩
  · rfl
  · simp [searchDocuments, hs]

theorem search_failure_yields_empty_witness :
    (SearchReply.response 503 none = .transportError ∨
      ∃ status hits, SearchReply.response 503 none = .response status hits ∧
        status ≠ 200) ∧
    searchDocuments "q" [] 10 (.response 503 none) = [] :=
  ⟨Or.inr ⟨503, none, rfl, by decide⟩,
   search_failure_yields_empty "q" [] 10 (.response 503 none)
     (Or.inr ⟨503, none, rfl, by decide⟩)⟩

/-! ### Empty-query claim -/

/-- C8: a request whose parsed body carries the empty query string makes
the run emit exactly the single event `error "Query is required"` and end
the stream, with no other event and no work attempted. -/
theorem empty_query_single_error (parsePayload : List Nat → Option String)
    (decReply : DecomposeReply) (oracle : Nat → SqOracle)
    (stream : StreamReply) (so : Bool) :
    runHandler parsePayload decReply oracle stream "" so =
      ([.error "Query is required"], true) := by
  simp [runHandler]

/-! ### Sources-only mode claims -/

theorem searchLoop_sourcesOnly_events (oracle : Nat → SqOracle) :
    ∀ (sqs : List SubQueryW) (i : Nat), (searchLoop true oracle i sqs).1 = [] := by
  intro sqs
  induction sqs with
  | nil =>
    intro i
    rfl
  | cons sq rest ih =>
    intro i
    simp only [searchLoop, searchOne]
    cases oracle i with
    | embedFail => simp [ih (i + 1)]
    | embedOk emb sr => simp [ih (i + 1)]

/-- C3 (counterexample to the claim as stated): in a sources-only run the
event immediately following `sources` is `step search complete`, not the
terminal `done` — `done` is not adjacent to `sources`. -/
theorem sources_only_done_not_adjacent :
    ((runHandler parseNone .transportError failOracle (.transportError "x")
        "q" true).1)[3]? = some (.sources []) ∧
    ((runHandler parseNone .transportError failOracle (.transportError "x")
        "q" true).1)[4]? = some (.step "search" "complete") ∧
    PEvent.step "search" "complete" ≠ PEvent.done := by
  refine ⟨?_, ?_, by decide⟩ <;> rfl

/-- C3 (amended): a sources-only run with a non-empty query emits exactly
`step analyze active/complete`, `step search active`, the single `sources`
event, `step search complete`, and the terminal `done` — in particular it
never emits a `subQueries`, `subQueryStatus` or `answerChunk` event, and
`done` follows `sources` with exactly the `step search complete` event in
between. -/
theorem sources_only_run_shape (parsePayload : List Nat → Option String)
    (decReply : DecomposeReply) (oracle : Nat → SqOracle) (stream : StreamReply)
    (query : String) (hq : query ≠ "") :
    runHandler parsePayload decReply oracle stream query true =
      ([.step "analyze" "active", .step "analyze" "complete",
        .step "search" "active",
        .sources (mergeTopSources
          (searchLoop true oracle 0 [⟨"sq-0", query, "main query", "pending"⟩]).2),
        .step "search" "complete", .done], true) ∧
    ∀ e ∈ (runHandler parsePayload decReply oracle stream query true).1,
      (∀ s, e ≠ .subQueries s) ∧ (∀ a b c, e ≠ .subQueryStatus a b c) ∧
      (∀ t, e ≠ .answerChunk t) := by
  have hshape : runHandler parsePayload decReply oracle stream query true =
      ([.step "analyze" "active", .step "analyze" "complete",
        .step "search" "active",
        .sources (mergeTopSources
          (searchLoop true oracle 0 [⟨"sq-0", query, "main query", "pending"⟩]).2),
        .step "search" "complete", .done], true) := by
    simp only [runHandler, if_neg hq, decomposeStage, if_true, synthesisTail,
      searchLoop_sourcesOnly_events oracle _ 0]
    rfl
  refine ⟨hshape, ?_⟩
  intro e he
  rw [hshape] at he
  simp only [List.mem_cons, List.mem_singleton, List.not_mem_nil, or_false] at he
  rcases he with rfl | rfl | rfl | rfl | rfl | rfl <;>
    refine ⟨fun s h => ?_, fun a b c h => ?_, fun t h => ?_⟩ <;> cases h

theorem sources_only_run_shape_witness :
    ("q" ≠ "") ∧
    (runHandler parseNone .transportError oneHitOracle (.transportError "x")
        "q" true =
      ([.step "analyze" "active", .step "analyze" "complete",
        .step "search" "active",
        .sources (mergeTopSources
          (searchLoop true oneHitOracle 0 [⟨"sq-0", "q", "main query", "pending"⟩]).2),
        .step "search" "complete", .done], true) ∧
    ∀ e ∈ (runHandler parseNone .transportError oneHitOracle
        (.transportError "x") "q" true).1,
      (∀ s, e ≠ .subQueries s) ∧ (∀ a b c, e ≠ .subQueryStatus a b c) ∧
      (∀ t, e ≠ .answerChunk t)) :=
  ⟨by decide,
   sources_only_run_shape parseNone .transportError oneHitOracle
     (.transportError "x") "q" (by decide)⟩

/-! ### Merge, rank and truncate claim -/

/-- C2: in every run with a non-empty query, the single `sources` event
carries exactly `mergeTopSources` of the multiset of hits collected across
the sub-queries; `mergeTopSources` sorts descending by relevance score and
keeps at most 8 entries; its deduplication keeps, per id, one element
realizing the maximum score over all collected hits with that id, and
covers every collected id; the sort is a stable permutation (per score
value the equal-score elements keep their input order, as the ES2019 sort
of line 739 does); on the concrete pair of hits sharing an id with scores
0.4 and 0.9, exactly the 0.9 hit survives; and two distinct-id hits tied
at the same score come out in their collection order. -/
theorem sources_event_is_merged_top (parsePayload : List Nat → Option String)
    (decReply : DecomposeReply) (oracle : Nat → SqOracle) (stream : StreamReply)
    (query : String) (so : Bool) (hq : query ≠ "") :
    (∃ front tail,
      (runHandler parsePayload decReply oracle stream query so).1 =
        front ++ .sources (mergeTopSources
          (searchLoop so oracle 0 (decomposeStage decReply query so).2).2) :: tail) ∧
    (∀ l : List SourceHit,
      (mergeTopSources l).Pairwise
        (fun a b => b.relevanceScore ≤ a.relevanceScore) ∧
      (mergeTopSources l).length ≤ 8 ∧
      (dedupById l).Pairwise (fun a b => a.id ≠ b.id) ∧
      (∀ h ∈ dedupById l, h ∈ l ∧
        ∀ h' ∈ l, h'.id = h.id → h'.relevanceScore ≤ h.relevanceScore) ∧
      (∀ h' ∈ l, ∃ h ∈ dedupById l, h.id = h'.id) ∧
      (sortByScoreDesc l).Perm l ∧
      (∀ q : ℚ, (sortByScoreDesc l).filter (fun h => h.relevanceScore = q) =
        l.filter (fun h => h.relevanceScore = q))) ∧
    dedupById [hitLow, hitHigh] = [hitHigh] ∧
    mergeTopSources [hitLow, hitHigh] = [hitHigh] ∧
    mergeTopSources [tieFirst, tieSecond] = [tieFirst, tieSecond] := by
  refine ⟨?_, ?_, by decide, by decide, by decide⟩
  · refine ⟨[.step "analyze" "active", .step "analyze" "complete"]
      ++ (decomposeStage decReply query so).1 ++ [.step "search" "active"]
      ++ (searchLoop so oracle 0 (decomposeStage decReply query so).2).1,
      .step "search" "complete" ::
        (synthesisTail parsePayload stream query so (mergeTopSources
          (searchLoop so oracle 0 (decomposeStage decReply query so).2).2)).1, ?_⟩
    simp only [runHandler, if_neg hq]
    simp [List.append_assoc]
  · intro l
    exact ⟨mergeTopSources_sorted l, mergeTopSources_length l,
      (dedupById_spec l).2.2, (dedupById_spec l).1, (dedupById_spec l).2.1,
      sortByScoreDesc_perm l, fun q => sortByScoreDesc_stable q l⟩

theorem sources_event_is_merged_top_witness :
    ("q" ≠ "") ∧
    ((∃ front tail,
      (runHandler parseNone .transportError oneHitOracle (.transportError "x")
        "q" false).1 =
        front ++ .sources (mergeTopSources
          (searchLoop false oneHitOracle 0
            (decomposeStage .transportError "q" false).2).2) :: tail) ∧
    (∀ l : List SourceHit,
      (mergeTopSources l).Pairwise
        (fun a b => b.relevanceScore ≤ a.relevanceScore) ∧
      (mergeTopSources l).length ≤ 8 ∧
      (dedupById l).Pairwise (fun a b => a.id ≠ b.id) ∧
      (∀ h ∈ dedupById l, h ∈ l ∧
        ∀ h' ∈ l, h'.id = h.id → h'.relevanceScore ≤ h.relevanceScore) ∧
      (∀ h' ∈ l, ∃ h ∈ dedupById l, h.id = h'.id) ∧
      (sortByScoreDesc l).Perm l ∧
      (∀ q : ℚ, (sortByScoreDesc l).filter (fun h => h.relevanceScore = q) =
        l.filter (fun h => h.relevanceScore = q))) ∧
    dedupById [hitLow, hitHigh] = [hitHigh] ∧
    mergeTopSources [hitLow, hitHigh] = [hitHigh] ∧
    mergeTopSources [tieFirst, tieSecond] = [tieFirst, tieSecond]) :=
  ⟨by decide,
   sources_event_is_merged_top parseNone .transportError oneHitOracle
     (.transportError "x") "q" false (by decide)⟩

/-! ### Run-termination claim -/

/-- C1 (code bug): a full-mode run with a non-empty query whose model
stream contains a frame declaring total length 0 emits a non-empty event
sequence with no terminal `done` or `error` at all — the decode loop
diverges on the zero-length frame, the promise never settles,
and the handler never reaches `res.end()` (completion flag `false`) — so
not every run is terminated by a `done` or `error` event. -/
theorem run_stalls_without_terminal_event :
    (runHandler parseNone .transportError oneHitOracle
      (.ok200 [zeroLenFrame] none) "q" false).2 = false ∧
    (runHandler parseNone .transportError oneHitOracle
      (.ok200 [zeroLenFrame] none) "q" false).1 ≠ [] ∧
    ∀ e ∈ (runHandler parseNone .transportError oneHitOracle
      (.ok200 [zeroLenFrame] none) "q" false).1, e.isTerminal = false := by
  refine ⟨rfl, by decide, by decide⟩

/-! ### Request-signer claims -/

theorem string_data_inj {a b : String} (h : a.data = b.data) : a = b := by
  cases a
  cases b
  cases h
  rfl

theorem string_append_cancel_left (s : String) {a b : String}
    (h : s ++ a = s ++ b) : a = b := by
  apply string_data_inj
  have hd := congrArg String.data h
  rw [String.data_append, String.data_append] at hd
  exact List.append_cancel_left hd

/-- C9: the signer is a pure, total function of method, URL, body, service
and timestamp — re-signing identical inputs at the same timestamp yields
byte-identical headers — and, for digest primitives that are injective and
whose output survives `trim` unchanged on the bodies at hand, changing the
body changes both the hex signature and the authorization header. -/
theorem signer_deterministic_and_body_sensitive
    (sha256hex : String → String) (hmac : String → String → String)
    (hs : Function.Injective sha256hex)
    (hm : ∀ k, Function.Injective (hmac k))
    (region secretKey accessKeyId method service datetime : String)
    (u : UrlParts) (b b' : String)
    (ht : jsTrim (sha256hex b) = sha256hex b)
    (ht' : jsTrim (sha256hex b') = sha256hex b')
    (hne : b ≠ b') :
    (∀ t', datetime = t' →
      signRequest sha256hex hmac region secretKey accessKeyId method u b
          service datetime =
        signRequest sha256hex hmac region secretKey accessKeyId method u b
          service t') ∧
    awsSignature sha256hex hmac region secretKey method u b service datetime ≠
      awsSignature sha256hex hmac region secretKey method u b' service datetime ∧
    authorizationOf sha256hex hmac region secretKey accessKeyId method u b
        service datetime ≠
      authorizationOf sha256hex hmac region secretKey accessKeyId method u b'
        service datetime := by
  have hsig : awsSignature sha256hex hmac region secretKey method u b
      service datetime ≠
      awsSignature sha256hex hmac region secretKey method u b' service datetime := by
    intro hsigeq
    have h1 := hm (signingKeyOf hmac region secretKey service datetime) hsigeq
    have h2 : sha256hex (canonicalRequestOf sha256hex method u b datetime) =
        sha256hex (canonicalRequestOf sha256hex method u b' datetime) := by
      unfold stringToSignOf at h1
      exact string_append_cancel_left _ h1
    have h3 := hs h2
    have hd := congrArg String.data h3
    unfold canonicalRequestOf canonicalHeadersOf at hd
    rw [ht, ht'] at hd
    simp only [String.data_append] at hd
    have hlen : (sha256hex b).data.length = (sha256hex b').data.length := by
      have h4 := congrArg List.length hd
      simp only [List.length_append] at h4
      omega
    have h5 := (List.append_inj' hd hlen).2
    exact hne (hs (string_data_inj h5))
  refine ⟨?_, hsig, ?_⟩
  · intro t' hteq
    rw [hteq]
  · intro hauth
    apply hsig
    unfold authorizationOf at hauth
    exact string_append_cancel_left _ hauth

theorem signer_deterministic_and_body_sensitive_witness :
    (Function.Injective shaSample ∧ (∀ k, Function.Injective (hmacSample k)) ∧
      jsTrim (shaSample "bodyA") = shaSample "bodyA" ∧
      jsTrim (shaSample "bodyB") = shaSample "bodyB" ∧
      "bodyA" ≠ "bodyB") ∧
    ((∀ t', "20250101T000000Z" = t' →
      signRequest shaSample hmacSample "us-east-1" "sk" "ak" "POST"
          ⟨"h.example", "/idx/_search"⟩ "bodyA" "aoss" "20250101T000000Z" =
        signRequest shaSample hmacSample "us-east-1" "sk" "ak" "POST"
          ⟨"h.example", "/idx/_search"⟩ "bodyA" "aoss" t') ∧
    awsSignature shaSample hmacSample "us-east-1" "sk" "POST"
        ⟨"h.example", "/idx/_search"⟩ "bodyA" "aoss" "20250101T000000Z" ≠
      awsSignature shaSample hmacSample "us-east-1" "sk" "POST"
        ⟨"h.example", "/idx/_search"⟩ "bodyB" "aoss" "20250101T000000Z" ∧
    authorizationOf shaSample hmacSample "us-east-1" "sk" "ak" "POST"
        ⟨"h.example", "/idx/_search"⟩ "bodyA" "aoss" "20250101T000000Z" ≠
      authorizationOf shaSample hmacSample "us-east-1" "sk" "ak" "POST"
        ⟨"h.example", "/idx/_search"⟩ "bodyB" "aoss" "20250101T000000Z") :=
  ⟨⟨fun _ _ h => h,
    fun k x y h => string_append_cancel_left (k ++ "|") h,
    by decide, by decide, by decide⟩,
   signer_deterministic_and_body_sensitive shaSample hmacSample
     (fun _ _ h => h) (fun k x y h => string_append_cancel_left (k ++ "|") h)
     "us-east-1" "sk" "ak" "POST" "aoss" "20250101T000000Z"
     ⟨"h.example", "/idx/_search"⟩ "bodyA" "bodyB"
     (by decide) (by decide) (by decide)⟩
